import Mathlib

/-!
# Shallow embedding of the `Chart` class (OHLC bar chart with pan/zoom)

This file embeds the TypeScript `Chart` class of the repository into Lean:
JS numbers are modelled as rationals (`ℚ`), the mutable instance fields as a
`Chart` record, and each event handler as a state-transforming function.
Division whose denominator can be zero (the vertical price mapping) is
modelled with an `Option`-valued division, `none` standing for the
NaN/Infinity a real JS division by zero produces.
-/

/-- One OHLC bar (`IBar` in `type.ts`). -/
structure IBar where
  Time : Int
  Open : ℚ
  High : ℚ
  Low : ℚ
  Close : ℚ
  TickVolume : Int
  deriving DecidableEq, Repr

/-- The mutable instance fields of the `Chart` class, together with the
immutable constructor argument `data` (the bar sequence). The canvas and 2D
context are host objects: the canvas pixel size is passed to the rendering
functions as arguments, and drawing is modelled by the coordinate values the
code computes. -/
structure Chart where
  data : List IBar
  scale : ℚ
  offsetX : ℚ
  offsetY : ℚ
  isDragging : Bool
  dragStartX : ℚ
  dragStartY : ℚ
  minPrice : ℚ
  maxPrice : ℚ
  deriving DecidableEq, Repr

/-- `Math.min(...xs)` over a spread list. Faithful for non-empty lists (on an
empty list JS returns `+Infinity`, which has no rational counterpart; every
claim below constrains itself to non-empty bar sequences). -/
def jsMin : List ℚ → ℚ
  | [] => 0
  | x :: xs => xs.foldl min x

/-- `Math.max(...xs)` over a spread list; faithful for non-empty lists. -/
def jsMax : List ℚ → ℚ
  | [] => 0
  | x :: xs => xs.foldl max x

/-- `calculatePriceRange`: `minPrice = Math.min(...data.map(bar => bar.Low))`,
`maxPrice = Math.max(...data.map(bar => bar.High))`. -/
def Chart.calculatePriceRange (c : Chart) : Chart :=
  { c with minPrice := jsMin (c.data.map IBar.Low)
           maxPrice := jsMax (c.data.map IBar.High) }

/-- The `Chart` constructor: field initialisers (`scale = 1`, offsets `0`,
no drag in progress) followed by `calculatePriceRange()`. Event registration
(`setupEvents`) is host wiring with no effect on the fields. -/
def mkChart (bars : List IBar) : Chart :=
  Chart.calculatePriceRange
    { data := bars, scale := 1, offsetX := 0, offsetY := 0,
      isDragging := false, dragStartX := 0, dragStartY := 0,
      minPrice := 0, maxPrice := 0 }

/-- Division returning `none` when the denominator is zero, modelling the
NaN/Infinity a JS division by zero produces. -/
def divQ (a b : ℚ) : Option ℚ := if b = 0 then none else some (a / b)

/-- `Math.sign`. -/
def signQ (x : ℚ) : ℚ := if 0 < x then 1 else if x < 0 then -1 else 0

/-- The effective horizontal offset computed at the top of `drawBars`:
`offsetX - (scaledWidth - width) / 2` with `scaledWidth = width * scale`. -/
def Chart.effOffsetX (c : Chart) (width : ℚ) : ℚ :=
  c.offsetX - (width * c.scale - width) / 2

/-- The effective vertical offset computed at the top of `drawBars`:
`offsetY - (scaledHeight - height) / 2` with `scaledHeight = height * scale`. -/
def Chart.effOffsetY (c : Chart) (height : ℚ) : ℚ :=
  c.offsetY - (height * c.scale - height) / 2

/-- Per-bar horizontal slot width: `barWidth = width / this.data.length`. -/
def Chart.barWidth (c : Chart) (width : ℚ) : ℚ :=
  width / (c.data.length : ℚ)

/-- The horizontal rendering map of `drawBars`:
`x = (index * width) / this.data.length * this.scale - offsetX` (with the
effective offset). Taking the index as an arbitrary rational also lets it act
as the map from continuous chart locations to pixels. -/
def Chart.barX (c : Chart) (width index : ℚ) : ℚ :=
  (index * width) / (c.data.length : ℚ) * c.scale - c.effOffsetX width

/-- The vertical linear price fraction `(price - minPrice) / (maxPrice - minPrice)`
used by `drawBars`; `none` models the NaN of a zero denominator. -/
def Chart.priceFrac (c : Chart) (price : ℚ) : Option ℚ :=
  divQ (price - c.minPrice) (c.maxPrice - c.minPrice)

/-- The bar top edge before the offset/centering term:
`scaledHeight - ((Close - minPrice) / (maxPrice - minPrice) * scaledHeight)`. -/
def Chart.barYRaw (c : Chart) (height close : ℚ) : Option ℚ :=
  (c.priceFrac close).map (fun f => height * c.scale - f * (height * c.scale))

/-- The bar top edge as drawn:
`y = scaledHeight - (... * scaledHeight) - offsetY` (effective offset). -/
def Chart.barY (c : Chart) (height close : ℚ) : Option ℚ :=
  (c.barYRaw height close).map (fun y => y - c.effOffsetY height)

/-- The bar body height:
`barHeight = (bar.High - bar.Low) / (maxPrice - minPrice) * scaledHeight`. -/
def Chart.barHeight (c : Chart) (height : ℚ) (bar : IBar) : Option ℚ :=
  (divQ (bar.High - bar.Low) (c.maxPrice - c.minPrice)).map
    (fun f => f * (height * c.scale))

/-- Fill colors used by `drawBars`. -/
inductive Color where
  | green
  | red
  deriving DecidableEq, Repr

/-- `this.ctx.fillStyle = bar.Close > bar.Open ? 'green' : 'red'`. -/
def Chart.barFillStyle (bar : IBar) : Color :=
  if bar.Open < bar.Close then Color.green else Color.red

/-- The x coordinate passed to `drawDateLabel`:
`labelX = (index * width) / this.data.length * this.scale - offsetX + barWidth / 2`. -/
def Chart.labelX (c : Chart) (width index : ℚ) : ℚ :=
  (index * width) / (c.data.length : ℚ) * c.scale - c.effOffsetX width
    + c.barWidth width / 2

/-- The y coordinate passed to `drawDateLabel`: `height - 5`. -/
def labelY (height : ℚ) : ℚ := height - 5

/-- `handleMouseWheel`. `pointerX`/`pointerY` are the pointer's surface-local
coordinates (`event.clientX - rect.left`, `event.clientY - rect.top`).
The `ctx.scale(zoomFactor, zoomFactor)` call issued when the clamped scale
exceeds 1 mutates only the host drawing context, not any `Chart` field. -/
def Chart.handleMouseWheel (c : Chart) (deltaY pointerX pointerY : ℚ) : Chart :=
  let delta := signQ deltaY
  let zoomFactor : ℚ := if 0 < delta then 11/10 else 9/10
  let previousScale := c.scale
  let newScale := max 1 (c.scale * zoomFactor)
  { c with scale := newScale
           offsetX := pointerX - (pointerX - c.offsetX) * (newScale / previousScale)
           offsetY := pointerY - (pointerY - c.offsetY) * (newScale / previousScale) }

/-- `handleMouseDown`: record the drag anchor and set the dragging flag. -/
def Chart.handleMouseDown (c : Chart) (clientX clientY : ℚ) : Chart :=
  { c with isDragging := true, dragStartX := clientX, dragStartY := clientY }

/-- `handleMouseMove`: only while dragging, add the delta from the anchor to
the offsets and move the anchor to the current position. -/
def Chart.handleMouseMove (c : Chart) (clientX clientY : ℚ) : Chart :=
  if c.isDragging then
    { c with offsetX := c.offsetX + (clientX - c.dragStartX)
             offsetY := c.offsetY + (clientY - c.dragStartY)
             dragStartX := clientX
             dragStartY := clientY }
  else c

/-- `handleMouseUp`. -/
def Chart.handleMouseUp (c : Chart) : Chart :=
  { c with isDragging := false }

/-- `handleMouseLeave`. -/
def Chart.handleMouseLeave (c : Chart) : Chart :=
  { c with isDragging := false }

/-- A wheel event: signed scroll delta plus surface-local pointer coordinates. -/
structure WheelEv where
  deltaY : ℚ
  pointerX : ℚ
  pointerY : ℚ
  deriving DecidableEq, Repr

/-- Fold a sequence of wheel events through `handleMouseWheel`. -/
def wheelRun (c : Chart) (evs : List WheelEv) : Chart :=
  evs.foldl (fun s e => s.handleMouseWheel e.deltaY e.pointerX e.pointerY) c

/-- The three-bar example bar sequence of the specification:
`[{O:10,H:12,L:9,C:11},{O:11,H:11,L:8,C:9},{O:9,H:10,L:8,C:9.5}]`. -/
def exampleBars : List IBar :=
  [ { Time := 0, Open := 10, High := 12, Low := 9, Close := 11, TickVolume := 0 },
    { Time := 0, Open := 11, High := 11, Low := 8, Close := 9, TickVolume := 0 },
    { Time := 0, Open := 9, High := 10, Low := 8, Close := 19/2, TickVolume := 0 } ]

/-- A single flat bar: `High = Low` (and `Open = Close`), the degenerate
price-range input of §7. -/
def flatBar : IBar :=
  { Time := 0, Open := 10, High := 10, Low := 10, Close := 10, TickVolume := 0 }

/-- A malformed bar violating the §3 invariant: `Close` above `High`. -/
def badBar : IBar :=
  { Time := 0, Open := 10, High := 12, Low := 9, Close := 100, TickVolume := 0 }

/-- The first bar of `exampleBars`. -/
def exBar0 : IBar :=
  { Time := 0, Open := 10, High := 12, Low := 9, Close := 11, TickVolume := 0 }

lemma foldl_min_le_init (l : List ℚ) (a : ℚ) : l.foldl min a ≤ a := by
  induction l generalizing a with
  | nil => simp
  | cons x xs ih => exact le_trans (ih (min a x)) (min_le_left a x)

lemma foldl_min_le_mem (l : List ℚ) :
    ∀ (a : ℚ) {x : ℚ}, x ∈ l → l.foldl min a ≤ x := by
  induction l with
  | nil => intro a x hx; simp at hx
  | cons y ys ih =>
    intro a x hx
    rcases List.mem_cons.1 hx with rfl | hx'
    · exact le_trans (foldl_min_le_init ys (min a x)) (min_le_right a x)
    · exact ih (min a y) hx'

lemma foldl_min_eq_init_or_mem (l : List ℚ) :
    ∀ a : ℚ, l.foldl min a = a ∨ l.foldl min a ∈ l := by
  induction l with
  | nil => intro a; exact Or.inl rfl
  | cons y ys ih =>
    intro a
    rcases ih (min a y) with h | h
    · rcases min_cases a y with ⟨hm, _⟩ | ⟨hm, _⟩
      · exact Or.inl (by rw [List.foldl_cons, h, hm])
      · exact Or.inr (by rw [List.foldl_cons, h, hm]; exact List.mem_cons_self y ys)
    · exact Or.inr (List.mem_cons_of_mem y h)

lemma init_le_foldl_max (l : List ℚ) (a : ℚ) : a ≤ l.foldl max a := by
  induction l generalizing a with
  | nil => simp
  | cons x xs ih => exact le_trans (le_max_left a x) (ih (max a x))

lemma mem_le_foldl_max (l : List ℚ) :
    ∀ (a : ℚ) {x : ℚ}, x ∈ l → x ≤ l.foldl max a := by
  induction l with
  | nil => intro a x hx; simp at hx
  | cons y ys ih =>
    intro a x hx
    rcases List.mem_cons.1 hx with rfl | hx'
    · exact le_trans (le_max_right a x) (init_le_foldl_max ys (max a x))
    · exact ih (max a y) hx'

lemma foldl_max_eq_init_or_mem (l : List ℚ) :
    ∀ a : ℚ, l.foldl max a = a ∨ l.foldl max a ∈ l := by
  induction l with
  | nil => intro a; exact Or.inl rfl
  | cons y ys ih =>
    intro a
    rcases ih (max a y) with h | h
    · rcases max_cases a y with ⟨hm, _⟩ | ⟨hm, _⟩
      · exact Or.inl (by rw [List.foldl_cons, h, hm])
      · exact Or.inr (by rw [List.foldl_cons, h, hm]; exact List.mem_cons_self y ys)
    · exact Or.inr (List.mem_cons_of_mem y h)

lemma jsMin_le_of_mem {bars : List IBar} {bar : IBar} (h : bar ∈ bars) :
    jsMin (bars.map IBar.Low) ≤ bar.Low := by
  cases bars with
  | nil => simp at h
  | cons b bs =>
    rcases List.mem_cons.1 h with rfl | h'
    · exact foldl_min_le_init _ _
    · exact foldl_min_le_mem _ _ (List.mem_map_of_mem IBar.Low h')

lemma le_jsMax_of_mem {bars : List IBar} {bar : IBar} (h : bar ∈ bars) :
    bar.High ≤ jsMax (bars.map IBar.High) := by
  cases bars with
  | nil => simp at h
  | cons b bs =>
    rcases List.mem_cons.1 h with rfl | h'
    · exact init_le_foldl_max _ _
    · exact mem_le_foldl_max _ _ (List.mem_map_of_mem IBar.High h')

lemma jsMin_mem {bars : List IBar} (h : bars ≠ []) :
    ∃ b ∈ bars, jsMin (bars.map IBar.Low) = b.Low := by
  cases bars with
  | nil => exact absurd rfl h
  | cons b bs =>
    rcases foldl_min_eq_init_or_mem (bs.map IBar.Low) b.Low with he | hm
    · exact ⟨b, List.mem_cons_self b bs, he⟩
    · rcases List.mem_map.1 hm with ⟨b', hb', he'⟩
      exact ⟨b', List.mem_cons_of_mem b hb', he'.symm⟩

lemma jsMax_mem {bars : List IBar} (h : bars ≠ []) :
    ∃ b ∈ bars, jsMax (bars.map IBar.High) = b.High := by
  cases bars with
  | nil => exact absurd rfl h
  | cons b bs =>
    rcases foldl_max_eq_init_or_mem (bs.map IBar.High) b.High with he | hm
    · exact ⟨b, List.mem_cons_self b bs, he⟩
    · rcases List.mem_map.1 hm with ⟨b', hb', he'⟩
      exact ⟨b', List.mem_cons_of_mem b hb', he'.symm⟩

lemma wheelRun_scale_ge (evs : List WheelEv) :
    ∀ c : Chart, 1 ≤ c.scale → 1 ≤ (wheelRun c evs).scale := by
  induction evs with
  | nil => intro c h; exact h
  | cons e rest ih =>
    intro c h
    exact ih _ (le_max_left 1 _)

/-- C1: the zoom-anchoring invariant fails on the code. For the three-bar
example chart (surface width 300), the chart location with index 1 maps to
pixel x = 100 before a wheel event at surface-local point (100, 50); after
the wheel handler updates scale (to 11/10, above the clamp floor of 1) and
the offsets via `newOffset = pointerCoord - (pointerCoord - oldOffset) *
(newScale/oldScale)`, the same location maps to pixel x = 135 ≠ 100: the
point under the pointer does not stay fixed, because the offset-update
formula assumes a rendering map of the form `u * scale + offset` while
`drawBars` computes `u * scale - offset + centering`. -/
theorem C1_wheel_moves_anchored_location :
    Chart.barX (mkChart exampleBars) 300 1 = 100
    ∧ ((mkChart exampleBars).handleMouseWheel 1 100 50).scale = 11/10
    ∧ Chart.barX ((mkChart exampleBars).handleMouseWheel 1 100 50) 300 1 = 135
    ∧ Chart.barX ((mkChart exampleBars).handleMouseWheel 1 100 50) 300 1
        ≠ Chart.barX (mkChart exampleBars) 300 1 := by
  refine ⟨?_, ?_, ?_, ?_⟩ <;>
    norm_num [mkChart, Chart.calculatePriceRange, jsMin, jsMax, Chart.barX,
      Chart.effOffsetX, Chart.handleMouseWheel, signQ, exampleBars]

/-- C2: the degenerate price range is not special-cased. For a single flat
bar (`High = Low = 10`) the constructed chart has `maxPrice = minPrice`, and
the vertical mapping of `drawBars` divides by `maxPrice - minPrice = 0`: the
bar body height and both forms of the bar top edge evaluate to `none`
(modelling the NaN/Infinity of a JS division by zero). No branch in the code
avoids this. -/
theorem C2_degenerate_range_not_special_cased :
    (mkChart [flatBar]).maxPrice = (mkChart [flatBar]).minPrice
    ∧ Chart.barHeight (mkChart [flatBar]) 400 flatBar = none
    ∧ Chart.barYRaw (mkChart [flatBar]) 400 flatBar.Close = none
    ∧ Chart.barY (mkChart [flatBar]) 400 flatBar.Close = none := by
  refine ⟨?_, ?_, ?_, ?_⟩ <;>
    norm_num [mkChart, Chart.calculatePriceRange, jsMin, jsMax, flatBar,
      Chart.barHeight, Chart.barYRaw, Chart.barY, Chart.priceFrac, divQ]

/-- C3: from a freshly constructed chart (scale = 1), the scale is never
below 1 after any sequence of wheel events; moreover a single wheel event
sets the scale to `max 1 (scale * factor)` where the factor is 11/10 when
the delta is positive and 9/10 otherwise — it depends only on the delta's
sign, so it is applied once per event regardless of magnitude, and the
result is clamped to the floor of 1. -/
theorem C3_scale_floor :
    (∀ (bars : List IBar) (evs : List WheelEv),
      1 ≤ (wheelRun (mkChart bars) evs).scale)
    ∧ (∀ (c : Chart) (deltaY px py : ℚ),
      (c.handleMouseWheel deltaY px py).scale
        = max 1 (c.scale * (if 0 < deltaY then 11/10 else 9/10))) := by
  constructor
  · intro bars evs
    refine wheelRun_scale_ge evs _ ?_
    simp [mkChart, Chart.calculatePriceRange]
  · intro c deltaY px py
    by_cases h : 0 < deltaY
    · simp [Chart.handleMouseWheel, signQ, h]
    · by_cases h' : deltaY < 0 <;>
        norm_num [Chart.handleMouseWheel, signQ, h, h']

/-- C9: a bar's fill color is green exactly when `Close > Open` strictly,
and red otherwise; in particular a bar with `Close = Open` (such as
`flatBar`) renders red. -/
theorem C9_color_tiebreak :
    (∀ bar : IBar, bar.Open < bar.Close → Chart.barFillStyle bar = Color.green)
    ∧ (∀ bar : IBar, ¬ bar.Open < bar.Close → Chart.barFillStyle bar = Color.red)
    ∧ (∀ bar : IBar, bar.Close = bar.Open → Chart.barFillStyle bar = Color.red)
    ∧ Chart.barFillStyle flatBar = Color.red := by
  refine ⟨?_, ?_, ?_, ?_⟩
  · intro bar h; simp [Chart.barFillStyle, h]
  · intro bar h; simp [Chart.barFillStyle, h]
  · intro bar h; simp [Chart.barFillStyle, h]
  · norm_num [Chart.barFillStyle, flatBar]

/-- C9 witness: the theorem applied to a concrete up bar and to the concrete
tie bar. -/
theorem C9_color_tiebreak_witness :
    Chart.barFillStyle exBar0 = Color.green
    ∧ Chart.barFillStyle flatBar = Color.red :=
  ⟨C9_color_tiebreak.1 exBar0 (by norm_num [exBar0]),
   C9_color_tiebreak.2.2.1 flatBar (by norm_num [flatBar])⟩

/-- C10: none of the five event handlers modifies the bar sequence `data`,
`minPrice` or `maxPrice`; they only touch scale, offsets and drag state
(rendering is modelled by pure functions of the state and cannot modify
it). -/
theorem C10_frame :
    ∀ (c : Chart) (a b d : ℚ),
      ((c.handleMouseWheel a b d).data = c.data
        ∧ (c.handleMouseWheel a b d).minPrice = c.minPrice
        ∧ (c.handleMouseWheel a b d).maxPrice = c.maxPrice)
      ∧ ((c.handleMouseDown a b).data = c.data
        ∧ (c.handleMouseDown a b).minPrice = c.minPrice
        ∧ (c.handleMouseDown a b).maxPrice = c.maxPrice)
      ∧ ((c.handleMouseMove a b).data = c.data
        ∧ (c.handleMouseMove a b).minPrice = c.minPrice
        ∧ (c.handleMouseMove a b).maxPrice = c.maxPrice)
      ∧ (c.handleMouseUp.data = c.data
        ∧ c.handleMouseUp.minPrice = c.minPrice
        ∧ c.handleMouseUp.maxPrice = c.maxPrice)
      ∧ (c.handleMouseLeave.data = c.data
        ∧ c.handleMouseLeave.minPrice = c.minPrice
        ∧ c.handleMouseLeave.maxPrice = c.maxPrice) := by
  intro c a b d
  refine ⟨⟨rfl, rfl, rfl⟩, ⟨rfl, rfl, rfl⟩, ?_, ⟨rfl, rfl, rfl⟩, ⟨rfl, rfl, rfl⟩⟩
  unfold Chart.handleMouseMove
  by_cases h : c.isDragging <;> simp [h]

/-- Fold a sequence of mouse-move events (client coordinates) through
`handleMouseMove`. -/
def moveRun (c : Chart) (moves : List (ℚ × ℚ)) : Chart :=
  moves.foldl (fun s m => s.handleMouseMove m.1 m.2) c

lemma handleMouseMove_dragging {c : Chart} (h : c.isDragging = true)
    (px py : ℚ) :
    c.handleMouseMove px py =
      { c with offsetX := c.offsetX + (px - c.dragStartX)
               offsetY := c.offsetY + (py - c.dragStartY)
               dragStartX := px, dragStartY := py } := by
  simp [Chart.handleMouseMove, h]

lemma moveRun_drag (moves : List (ℚ × ℚ)) :
    ∀ (s : Chart) (B : ℚ × ℚ), s.isDragging = true →
      moves.getLast? = some B →
      (moveRun s moves).offsetX = s.offsetX + (B.1 - s.dragStartX)
      ∧ (moveRun s moves).offsetY = s.offsetY + (B.2 - s.dragStartY) := by
  induction moves with
  | nil => intro s B _ hlast; simp at hlast
  | cons m rest ih =>
    intro s B hdrag hlast
    have hstep := handleMouseMove_dragging hdrag m.1 m.2
    cases rest with
    | nil =>
      have hB : m = B := by simpa using hlast
      subst hB
      constructor <;> simp [moveRun, hstep]
    | cons m' rest' =>
      have hlast' : (m' :: rest').getLast? = some B := by
        rw [List.getLast?_cons_cons] at hlast; exact hlast
      have hdrag' : (s.handleMouseMove m.1 m.2).isDragging = true := by
        rw [hstep]; exact hdrag
      have hfold : moveRun s (m :: m' :: rest')
          = moveRun (s.handleMouseMove m.1 m.2) (m' :: rest') := rfl
      rcases ih (s.handleMouseMove m.1 m.2) B hdrag' hlast' with ⟨hx, hy⟩
      rw [hstep] at hx hy
      simp only at hx hy
      constructor
      · rw [hfold, hstep, hx]; ring
      · rw [hfold, hstep, hy]; ring

/-- C5: a drag that starts with pointer-down at anchor (ax, ay) and proceeds
by any non-empty sequence of pointer-move events ending at B changes
(offsetX, offsetY) by exactly (B.1 - ax, B.2 - ay) — deltas are incremental,
1:1 (not scaled by zoom) — and a pointer-move outside a drag changes
nothing. -/
theorem C5_pan_additivity :
    (∀ (c : Chart) (ax ay : ℚ) (moves : List (ℚ × ℚ)) (B : ℚ × ℚ),
      moves.getLast? = some B →
        (moveRun (c.handleMouseDown ax ay) moves).offsetX
            = c.offsetX + (B.1 - ax)
        ∧ (moveRun (c.handleMouseDown ax ay) moves).offsetY
            = c.offsetY + (B.2 - ay))
    ∧ (∀ (c : Chart) (px py : ℚ), c.isDragging = false →
        c.handleMouseMove px py = c) := by
  constructor
  · intro c ax ay moves B hlast
    have h := moveRun_drag moves (c.handleMouseDown ax ay) B rfl hlast
    simpa [Chart.handleMouseDown] using h
  · intro c px py h
    simp [Chart.handleMouseMove, h]

/-- C5 witness: the theorem applied to a concrete drag from anchor (1, 2)
through (3, 4) to (10, 20), and to a move on a non-dragging chart. -/
theorem C5_pan_additivity_witness :
    ((moveRun ((mkChart exampleBars).handleMouseDown 1 2) [(3, 4), (10, 20)]).offsetX
        = (mkChart exampleBars).offsetX + ((10 : ℚ) - 1)
      ∧ (moveRun ((mkChart exampleBars).handleMouseDown 1 2) [(3, 4), (10, 20)]).offsetY
        = (mkChart exampleBars).offsetY + ((20 : ℚ) - 2))
    ∧ (mkChart exampleBars).handleMouseMove 5 5 = mkChart exampleBars :=
  ⟨C5_pan_additivity.1 (mkChart exampleBars) 1 2 [(3, 4), (10, 20)] (10, 20) rfl,
   C5_pan_additivity.2 (mkChart exampleBars) 5 5 rfl⟩

/-- C8: the price range is the minimum Low / maximum High over the bars —
for the specification's three-bar example minPrice = 8 and maxPrice = 12;
in general the constructed minPrice is a lower bound of the Lows and is
attained by some bar (dually for maxPrice); and no event handler changes
minPrice or maxPrice after construction. -/
theorem C8_price_range_once :
    ((mkChart exampleBars).minPrice = 8 ∧ (mkChart exampleBars).maxPrice = 12)
    ∧ (∀ (bars : List IBar) (bar : IBar), bar ∈ bars →
        (mkChart bars).minPrice ≤ bar.Low ∧ bar.High ≤ (mkChart bars).maxPrice)
    ∧ (∀ bars : List IBar, bars ≠ [] →
        (∃ b ∈ bars, (mkChart bars).minPrice = b.Low)
        ∧ ∃ b ∈ bars, (mkChart bars).maxPrice = b.High)
    ∧ (∀ (c : Chart) (a b d : ℚ),
        (c.handleMouseWheel a b d).minPrice = c.minPrice
        ∧ (c.handleMouseWheel a b d).maxPrice = c.maxPrice
        ∧ (c.handleMouseDown a b).minPrice = c.minPrice
        ∧ (c.handleMouseDown a b).maxPrice = c.maxPrice
        ∧ (c.handleMouseMove a b).minPrice = c.minPrice
        ∧ (c.handleMouseMove a b).maxPrice = c.maxPrice
        ∧ c.handleMouseUp.minPrice = c.minPrice
        ∧ c.handleMouseUp.maxPrice = c.maxPrice
        ∧ c.handleMouseLeave.minPrice = c.minPrice
        ∧ c.handleMouseLeave.maxPrice = c.maxPrice) := by
  refine ⟨?_, ?_, ?_, ?_⟩
  · constructor <;>
      norm_num [mkChart, Chart.calculatePriceRange, jsMin, jsMax, exampleBars]
  · intro bars bar h
    exact ⟨jsMin_le_of_mem h, le_jsMax_of_mem h⟩
  · intro bars h
    exact ⟨jsMin_mem h, jsMax_mem h⟩
  · intro c a b d
    refine ⟨rfl, rfl, rfl, rfl, ?_, ?_, rfl, rfl, rfl, rfl⟩ <;>
      · unfold Chart.handleMouseMove
        by_cases h : c.isDragging <;> simp [h]

/-- C8 witness: the general parts of the theorem applied to the example
bars and their first bar. -/
theorem C8_price_range_once_witness :
    ((mkChart exampleBars).minPrice ≤ exBar0.Low
      ∧ exBar0.High ≤ (mkChart exampleBars).maxPrice)
    ∧ ∃ b ∈ exampleBars, (mkChart exampleBars).minPrice = b.Low :=
  ⟨C8_price_range_once.2.1 exampleBars exBar0
      (by simp [exampleBars, exBar0]),
   (C8_price_range_once.2.2.1 exampleBars (by simp [exampleBars])).1⟩

/-- C4 counterexample: the claim quantifies over all bar sequences with
maxPrice > minPrice without assuming the §3 bar invariant. For the single
malformed bar `badBar` (Close = 100 above High = 12; minPrice = 9 <
maxPrice = 12), at surface height 100 and scale 1 the computed top edge
before offsets is -8800/3, strictly below the claimed range [0, 100]. -/
theorem C4_counterexample :
    (mkChart [badBar]).minPrice < (mkChart [badBar]).maxPrice
    ∧ (mkChart [badBar]).scale = 1
    ∧ Chart.barYRaw (mkChart [badBar]) 100 badBar.Close = some (-8800/3)
    ∧ ¬ (0 : ℚ) ≤ -8800/3 := by
  refine ⟨?_, ?_, ?_, by norm_num⟩ <;>
    norm_num [mkChart, Chart.calculatePriceRange, jsMin, jsMax, badBar,
      Chart.barYRaw, Chart.priceFrac, divQ]

/-- C4 amended: with the §3 invariant Low ≤ Close ≤ High assumed for the
bar (and non-negative surface height and scale), every bar of a chart whose
price range is the min-Low/max-High of its data with maxPrice > minPrice
has its top edge (before offset/centering) and its body height within
[0, height * scale]. -/
theorem C4_amended (c : Chart) (height : ℚ) (bar : IBar)
    (hmin : c.minPrice = jsMin (c.data.map IBar.Low))
    (hmax : c.maxPrice = jsMax (c.data.map IBar.High))
    (hrange : c.minPrice < c.maxPrice)
    (hheight : 0 ≤ height) (hscale : 0 ≤ c.scale)
    (hbar : bar ∈ c.data)
    (hlc : bar.Low ≤ bar.Close) (hch : bar.Close ≤ bar.High) :
    (∃ y, Chart.barYRaw c height bar.Close = some y
      ∧ 0 ≤ y ∧ y ≤ height * c.scale)
    ∧ ∃ bh, Chart.barHeight c height bar = some bh
      ∧ 0 ≤ bh ∧ bh ≤ height * c.scale := by
  have hlow : c.minPrice ≤ bar.Low := hmin ▸ jsMin_le_of_mem hbar
  have hhigh : bar.High ≤ c.maxPrice := hmax ▸ le_jsMax_of_mem hbar
  have hd : (0 : ℚ) < c.maxPrice - c.minPrice := sub_pos.2 hrange
  have hd0 : c.maxPrice - c.minPrice ≠ 0 := ne_of_gt hd
  have hhs : (0 : ℚ) ≤ height * c.scale := mul_nonneg hheight hscale
  constructor
  · have hf0 : (0 : ℚ) ≤ (bar.Close - c.minPrice) / (c.maxPrice - c.minPrice) :=
      div_nonneg (by linarith) hd.le
    have hf1 : (bar.Close - c.minPrice) / (c.maxPrice - c.minPrice) ≤ 1 :=
      (div_le_one hd).2 (by linarith)
    refine ⟨height * c.scale
        - (bar.Close - c.minPrice) / (c.maxPrice - c.minPrice)
          * (height * c.scale), ?_, ?_, ?_⟩
    · simp [Chart.barYRaw, Chart.priceFrac, divQ, hd0]
    · have h1 := mul_le_of_le_one_left hhs hf1
      linarith
    · have h2 := mul_nonneg hf0 hhs
      linarith
  · have hg0 : (0 : ℚ) ≤ (bar.High - bar.Low) / (c.maxPrice - c.minPrice) :=
      div_nonneg (by linarith) hd.le
    have hg1 : (bar.High - bar.Low) / (c.maxPrice - c.minPrice) ≤ 1 :=
      (div_le_one hd).2 (by linarith)
    refine ⟨(bar.High - bar.Low) / (c.maxPrice - c.minPrice)
        * (height * c.scale), ?_, ?_, ?_⟩
    · simp [Chart.barHeight, divQ, hd0]
    · exact mul_nonneg hg0 hhs
    · exact mul_le_of_le_one_left hhs hg1

/-- C4 amended witness: the amended theorem at the example chart, surface
height 100, and its first (well-formed) bar. -/
theorem C4_amended_witness :
    (∃ y, Chart.barYRaw (mkChart exampleBars) 100 exBar0.Close = some y
      ∧ 0 ≤ y ∧ y ≤ 100 * (mkChart exampleBars).scale)
    ∧ ∃ bh, Chart.barHeight (mkChart exampleBars) 100 exBar0 = some bh
      ∧ 0 ≤ bh ∧ bh ≤ 100 * (mkChart exampleBars).scale :=
  C4_amended (mkChart exampleBars) 100 exBar0 rfl rfl
    (by norm_num [mkChart, Chart.calculatePriceRange, jsMin, jsMax, exampleBars])
    (by norm_num)
    (by norm_num [mkChart, Chart.calculatePriceRange])
    (by simp [mkChart, Chart.calculatePriceRange, exampleBars, exBar0])
    (by norm_num [exBar0]) (by norm_num [exBar0])

/-- Modelled from the spec: the host `Date` calendar conversion used by
`getDateFromBar` is not part of the repository source. `civilFromDays`
converts a count of days since the Unix epoch to a proleptic Gregorian
(day, month, year) triple, month 1-based. -/
def civilFromDays (z0 : Int) : Int × Int × Int :=
  let z := z0 + 719468
  let era := Int.fdiv z 146097
  let doe := z - era * 146097
  let yoe := Int.fdiv
    (doe - Int.fdiv doe 1460 + Int.fdiv doe 36524 - Int.fdiv doe 146096) 365
  let y := yoe + era * 400
  let doy := doe - (365 * yoe + Int.fdiv yoe 4 - Int.fdiv yoe 100)
  let mp := Int.fdiv (5 * doy + 2) 153
  let d := doy - Int.fdiv (153 * mp + 2) 5 + 1
  let m := mp + if mp < 10 then 3 else -9
  (d, m, if m ≤ 2 then y + 1 else y)

/-- Modelled from the spec: `getDateFromBar(time)` builds
`new Date(time * 1000)` and returns the string
`getDate() "." (getMonth() + 1) "." getFullYear()` — "convert the bar's
unix-second timestamp to a calendar date (day.month.year, using the
viewer's local time zone)". The host `Date` object is not in the
repository source; the viewer's local time zone enters as the explicit
UTC-offset parameter `tz` in seconds (local time = UTC + tz), and
`civilFromDays` plays the role of its calendar arithmetic. -/
def getDateFromBar (tz : Int) (time : Int) : String :=
  let c := civilFromDays (Int.fdiv (time + tz) 86400)
  let d := c.1
  let m := c.2.1
  let y := c.2.2
  s!"{d}.{m}.{y}"

/-- The date-labeling loop of `drawBars`: walk the bars left to right with
the mutable `previousDate` (initially null) threaded through; a bar gets a
label exactly when `currentDate !== previousDate`, and `previousDate` is
then set to `currentDate`. Returns the indices of the labelled bars. -/
def labelsFrom (tz : Int) : Option String → Nat → List IBar → List Nat
  | _, _, [] => []
  | prev, i, bar :: rest =>
    let cur := getDateFromBar tz bar.Time
    if some cur ≠ prev then i :: labelsFrom tz (some cur) (i + 1) rest
    else labelsFrom tz prev (i + 1) rest

/-- The indices of the bars `drawBars` draws a date label under:
`previousDate` starts as null and the index at 0. -/
def labelIndices (tz : Int) (bars : List IBar) : List Nat :=
  labelsFrom tz none 0 bars

/-- Bars at D1 00:00, D1 12:00 and D2 00:00 with D1 = 1 Jan 1970 and
D2 = 2 Jan 1970 (UTC, tz = 0): two distinct calendar days. -/
def twoDayBars : List IBar :=
  [ { exBar0 with Time := 0 },
    { exBar0 with Time := 43200 },
    { exBar0 with Time := 86400 } ]

/-- Three bars all on 1 Jan 1970 (UTC, tz = 0). -/
def sameDayBars : List IBar :=
  [ { exBar0 with Time := 0 },
    { exBar0 with Time := 3600 },
    { exBar0 with Time := 7200 } ]

lemma labelsFrom_cons (tz : Int) (p : Option String) (i : Nat) (bar : IBar)
    (rest : List IBar) :
    labelsFrom tz p i (bar :: rest)
      = (if some (getDateFromBar tz bar.Time) ≠ p then [i] else [])
        ++ labelsFrom tz (some (getDateFromBar tz bar.Time)) (i + 1) rest := by
  rw [labelsFrom]
  by_cases h : some (getDateFromBar tz bar.Time) ≠ p
  · simp [h]
  · push_neg at h
    simp [h]

lemma labelsFrom_after_mem (tz : Int) :
    ∀ (rest : List IBar) (p : IBar) (k j : Nat),
      j ∈ labelsFrom tz (some (getDateFromBar tz p.Time)) k rest ↔
        ∃ t b b', j = k + t ∧ rest[t]? = some b ∧ (p :: rest)[t]? = some b'
          ∧ getDateFromBar tz b.Time ≠ getDateFromBar tz b'.Time := by
  intro rest
  induction rest with
  | nil => intro p k j; simp [labelsFrom]
  | cons b rest' ih =>
    intro p k j
    rw [labelsFrom_cons]
    constructor
    · intro hj
      rcases List.mem_append.1 hj with h1 | h2
      · by_cases hd : getDateFromBar tz b.Time = getDateFromBar tz p.Time
        · simp [hd] at h1
        · simp [hd] at h1
          exact ⟨0, b, p, by omega, by simp, by simp, by simpa using hd⟩
      · rcases (ih b (k + 1) j).1 h2 with ⟨t, bb, b', ht, hb, hb', hne⟩
        refine ⟨t + 1, bb, b', by omega, ?_, ?_, hne⟩
        · simpa using hb
        · simpa using hb'
    · rintro ⟨t, bb, b', ht, hb, hb', hne⟩
      cases t with
      | zero =>
        simp only [List.getElem?_cons_zero, Option.some.injEq] at hb hb'
        refine List.mem_append.2 (Or.inl ?_)
        have hdd : getDateFromBar tz b.Time ≠ getDateFromBar tz p.Time := by
          rw [hb, hb']; exact hne
        simp [hdd]
        omega
      | succ t' =>
        refine List.mem_append.2 (Or.inr ?_)
        apply (ih b (k + 1) j).2
        refine ⟨t', bb, b', by omega, ?_, ?_, hne⟩
        · simpa using hb
        · simpa using hb'

/-- C6: a date label is drawn for bar i exactly when i = 0 or bar i's
calendar date string differs from bar i-1's (for every UTC offset); in
particular the timestamps [D1 00:00, D1 12:00, D2 00:00] (D1 = 1 Jan 1970,
D2 = 2 Jan 1970) produce exactly the two labels at indices 0 and 2, and
three same-day timestamps produce exactly the one label at index 0. -/
theorem C6_date_labels :
    (∀ (tz : Int) (bars : List IBar) (i : Nat),
      i ∈ labelIndices tz bars ↔
        ∃ b, bars[i]? = some b ∧
          (i = 0 ∨ ∃ b', bars[i - 1]? = some b'
            ∧ getDateFromBar tz b.Time ≠ getDateFromBar tz b'.Time))
    ∧ labelIndices 0 twoDayBars = [0, 2]
    ∧ labelIndices 0 sameDayBars = [0] := by
  refine ⟨?_, by decide, by decide⟩
  intro tz bars i
  cases bars with
  | nil => simp [labelIndices, labelsFrom]
  | cons b rest =>
    have h0 : labelIndices tz (b :: rest)
        = 0 :: labelsFrom tz (some (getDateFromBar tz b.Time)) 1 rest := by
      rw [labelIndices, labelsFrom_cons]
      simp
    rw [h0]
    constructor
    · intro hi
      rcases List.mem_cons.1 hi with rfl | hmem
      · exact ⟨b, by simp, Or.inl rfl⟩
      · rcases (labelsFrom_after_mem tz rest b 1 i).1 hmem with
          ⟨t, bb, b', ht, hb, hb', hne⟩
        refine ⟨bb, ?_, Or.inr ⟨b', ?_, hne⟩⟩
        · have e : i = t + 1 := by omega
          subst e
          simpa using hb
        · have e : i - 1 = t := by omega
          rw [e]
          have e2 : i = t + 1 := by omega
          simpa using hb'
    · rintro ⟨bb, hbb, hz | ⟨b', hb', hne⟩⟩
      · subst hz
        exact List.mem_cons_self 0 _
      · cases i with
        | zero =>
          simp only [Nat.zero_sub, List.getElem?_cons_zero,
            Option.some.injEq] at hbb hb'
          exact absurd (by rw [← hbb, ← hb']) hne
        | succ t =>
          refine List.mem_cons.2 (Or.inr ?_)
          apply (labelsFrom_after_mem tz rest b 1 (t + 1)).2
          refine ⟨t, bb, b', by omega, ?_, ?_, hne⟩
          · simpa using hbb
          · simpa using hb'

/-- C7 counterexample: after one zoom-in wheel event on the example chart
(scale 11/10, offsets 0), the label for bar 0 at surface width 300 is drawn
at x = 65, while the rendered bar's horizontal center — its left pixel edge
plus half its scaled on-screen width `barWidth * scale` (the width passed to
`fillRect`) — is at 70: the label x adds half the unscaled slot width, so it
is not the rendered center once scale differs from 1. -/
theorem C7_label_off_center :
    ((mkChart exampleBars).handleMouseWheel 1 0 0).scale = 11/10
    ∧ Chart.labelX ((mkChart exampleBars).handleMouseWheel 1 0 0) 300 0 = 65
    ∧ Chart.barX ((mkChart exampleBars).handleMouseWheel 1 0 0) 300 0
        + Chart.barWidth ((mkChart exampleBars).handleMouseWheel 1 0 0) 300
          * ((mkChart exampleBars).handleMouseWheel 1 0 0).scale / 2 = 70
    ∧ (65 : ℚ) ≠ 70 := by
  refine ⟨?_, ?_, ?_, by norm_num⟩ <;>
    norm_num [mkChart, Chart.calculatePriceRange, jsMin, jsMax, exampleBars,
      Chart.labelX, Chart.barX, Chart.barWidth, Chart.effOffsetX,
      Chart.handleMouseWheel, signQ]

/-- C7 amended: each drawn date label sits at the bar's left pixel edge plus
half the unscaled slot width `width / barCount / 2`, which coincides with
the rendered horizontal center (left edge plus half the scaled on-screen
width) exactly in the unzoomed state scale = 1; the label's y coordinate is
the fixed 5-pixel inset above the bottom edge, `height - 5`. -/
theorem C7_amended :
    (∀ (c : Chart) (width u : ℚ),
      Chart.labelX c width u = Chart.barX c width u + Chart.barWidth c width / 2)
    ∧ (∀ (c : Chart) (width u : ℚ), c.scale = 1 →
      Chart.labelX c width u
        = Chart.barX c width u + Chart.barWidth c width * c.scale / 2)
    ∧ (∀ height : ℚ, labelY height = height - 5) := by
  refine ⟨fun c width u => rfl, ?_, fun height => rfl⟩
  intro c width u h
  rw [h, mul_one]
  rfl

/-- C7 amended witness: the amended theorem at the freshly constructed
example chart, whose scale is 1. -/
theorem C7_amended_witness :
    Chart.labelX (mkChart exampleBars) 300 0
      = Chart.barX (mkChart exampleBars) 300 0
        + Chart.barWidth (mkChart exampleBars) 300 * (mkChart exampleBars).scale / 2 :=
  C7_amended.2.1 (mkChart exampleBars) 300 0 rfl
